import Mathlib

/-!
Shallow embedding of the WFS FUSE driver (`wfsfuse.c` together with the
on-disk format header).  The backing image is modelled as a total byte
store; every function below is translated from the corresponding C
function, keeping its name where Lean allows it.  Machine integers are
modelled as `Nat` with explicit reductions where the C code relies on
wrap-around or integer promotion; those places are commented.
-/

/-! ## Constants from the format header (`wfs.h`) -/

def WFS_MAGIC_SIZE : Nat := 16

def WFS_FILENAME_SIZE : Nat := 58

def WFS_BLOCK_SIZE : Nat := 512

def WFS_N_FILES : Nat := 64

def WFS_N_BLOCKS : Nat := 16384

def WFS_SIZE_MASK : Nat := 0x0fffffff

def WFS_BLOCK_FREE : Nat := 0

def WFS_BLOCK_EOF : Nat := 0xfffe

/-- `sizeof(wfs_file_entry_t)`: 58 name bytes + 2 start-block bytes + 4
size bytes, packed. -/
def wfs_file_entry_sizeof : Nat := WFS_FILENAME_SIZE + 2 + 4

def WFS_ENTRIES_START : Nat := WFS_MAGIC_SIZE

def WFS_BLOCK_TABLE_START : Nat :=
  WFS_ENTRIES_START + WFS_N_FILES * wfs_file_entry_sizeof

def WFS_BLOCK_TABLE_SIZE : Nat := WFS_N_BLOCKS * 2

def WFS_DATA_START : Nat := WFS_BLOCK_TABLE_START + WFS_BLOCK_TABLE_SIZE

/-! ## The backing image and raw reads (`pread` on the image fd) -/

/-- The opened image: a total byte store.  `wfs_image_t` in the source
holds a file descriptor; all access goes through `pread`, modelled as
`readByte` (each byte reduced mod 256). -/
structure wfs_image_t where
  byte : Nat → Nat

def readByte (img : wfs_image_t) (o : Nat) : Nat := img.byte o % 256

/-- Little-endian 16-bit read, as `pread(fd, &u16, 2, o)` on x86. -/
def readU16 (img : wfs_image_t) (o : Nat) : Nat :=
  readByte img o + 256 * readByte img (o + 1)

/-- Little-endian 32-bit read, as `pread(fd, &u32, 4, o)` on x86. -/
def readU32 (img : wfs_image_t) (o : Nat) : Nat :=
  readByte img o + 256 * readByte img (o + 1)
    + 65536 * readByte img (o + 2) + 16777216 * readByte img (o + 3)

/-! ## File entries (`wfs_file_entry_t`) -/

/-- In-memory copy of a directory-slot record.  `filename` gives the
byte at each index of the 58-byte name field (only indices `< 58` are
ever consulted, mirroring the fixed array). -/
structure wfs_file_entry_t where
  filename : Nat → Nat
  start_block : Nat
  size : Nat

/-- `pread` of a whole `wfs_file_entry_t` at image offset `o`
(packed layout: name at `o`, start block at `o+58`, size at `o+60`). -/
def readEntry (img : wfs_image_t) (o : Nat) : wfs_file_entry_t :=
  { filename := fun i => readByte img (o + i)
    start_block := readU16 img (o + WFS_FILENAME_SIZE)
    size := readU32 img (o + WFS_FILENAME_SIZE + 2) }

def wfs_file_entry_is_empty (e : wfs_file_entry_t) : Bool :=
  e.filename 0 == 0 || e.start_block == WFS_BLOCK_FREE

/-- Bit 31 of the packed size field: `(size & (1 << 31)) == (1 << 31)`.
For a 32-bit value this is exactly "bit 31 is set". -/
def wfs_file_entry_is_directory (e : wfs_file_entry_t) : Bool :=
  e.size / 2 ^ 31 % 2 == 1

/-- `size & WFS_SIZE_MASK`; the mask keeps the low 28 bits, which for a
32-bit value is reduction mod `2^28`. -/
def wfs_file_entry_get_size (e : wfs_file_entry_t) : Nat :=
  e.size % 0x10000000

def wfs_get_block_offset (block : Nat) : Nat :=
  WFS_DATA_START + block * WFS_BLOCK_SIZE

/-! ## Block allocation table -/

/-- `wfs_block_table_read(image, idx)`: 16-bit read of allocation-table
slot `idx`.  `idx` is a `uint16_t` parameter; callers pass values that
already fit. -/
def wfs_block_table_read (img : wfs_image_t) (idx : Nat) : Nat :=
  readU16 img (WFS_BLOCK_TABLE_START + idx * 2)

/-- Chain walk of `wfs_get_current_block`: `while (off >= o + 512)`
advance through the table.  Each iteration adds 512 to `o`, so
`off / 512 + 1` units of fuel always outlast the loop; the fuel-0 arm
repeats the loop-exit result and is never reached from the entry point
below.  The pair is `(block, block_position)`; on the end-of-chain
early returns the C leaves `*block_position` unwritten (callers bail
out before using it), modelled as 0. -/
def wfs_gcb_go (img : wfs_image_t) (off : Nat) : Nat → Nat → Nat → Nat × Nat
  | block, o, 0 => (block, off - o)
  | block, o, fuel + 1 =>
    if o + WFS_BLOCK_SIZE ≤ off then
      let b := wfs_block_table_read img (block - 1)
      if b = WFS_BLOCK_EOF then (b, 0)
      else wfs_gcb_go img off b (o + WFS_BLOCK_SIZE) fuel
    else (block, off - o)

/-- `wfs_get_current_block(image, entry, off, &block_position)`. -/
def wfs_get_current_block (img : wfs_image_t) (entry : wfs_file_entry_t)
    (off : Nat) : Nat × Nat :=
  if entry.start_block = WFS_BLOCK_EOF then (entry.start_block, 0)
  else wfs_gcb_go img off entry.start_block 0 (off / WFS_BLOCK_SIZE + 1)

/-- `wfs_get_next_block(image, current_block)`.  `current_block` is a
`uint16_t`; the guard `current_block - 1 >= WFS_N_BLOCKS` is computed
in `int` after promotion (so `0 - 1` is `-1`, which does NOT trip the
guard), and the table-read argument is then converted back to
`uint16_t` (so `0 - 1` becomes index 65535).  Modelled by the `Int`
comparison and the `% 65536` conversion. -/
def wfs_get_next_block (img : wfs_image_t) (current_block : Nat) : Nat :=
  if current_block = WFS_BLOCK_EOF then current_block
  else if (WFS_N_BLOCKS : Int) ≤ (current_block : Int) - 1 then WFS_BLOCK_EOF
  else wfs_block_table_read img ((current_block + 65535) % 65536)

/-! ## Generic file entry operations (`wfs_file_entry_operation`) -/

/-- The local `int aantalfiles = 16` of `wfs_file_entry_operation`:
the scan visits exactly this many slots, for the root and for every
other directory alike. -/
def aantalfiles : Nat := 16

/-- The `entrystart` selection of `wfs_file_entry_operation`: the root
table for the empty (root) parent, otherwise the byte offset of the
parent's first data block — the scan then reads `aantalfiles`
consecutive 64-byte records from that offset, without consulting the
block-allocation table. -/
def entrystartFor (parent : wfs_file_entry_t) : Nat :=
  if wfs_file_entry_is_empty parent then WFS_ENTRIES_START
  else wfs_get_block_offset (parent.start_block - 1)

/-- `strncmp(a, b, n) == 0` for `char` arrays read from the image:
compare position by position, stopping at the first mismatch (false)
or at a shared NUL (true), or after `n` positions. -/
def strncmp_eq (a b : Nat → Nat) : Nat → Nat → Bool
  | _, 0 => true
  | i, n + 1 =>
    if a i ≠ b i then false
    else if a i = 0 then true
    else strncmp_eq a b (i + 1) n

/-- The scan loop of `wfs_file_entry_operation` specialised to
`WFS_FILE_ENTRY_OP_FIND`: slot `i`, `fuel` slots left to visit
(`fuel = aantalfiles` at the call site).  Empty slots are skipped; a
name match (via `strncmp` over the whole 58-byte field) returns the
slot's record. -/
def wfs_find_in_slots (img : wfs_image_t) (entrystart : Nat)
    (name : Nat → Nat) : Nat → Nat → Option wfs_file_entry_t
  | _, 0 => none
  | i, fuel + 1 =>
    let tmp := readEntry img (entrystart + i * wfs_file_entry_sizeof)
    if wfs_file_entry_is_empty tmp then
      wfs_find_in_slots img entrystart name (i + 1) fuel
    else if strncmp_eq tmp.filename name 0 WFS_FILENAME_SIZE then some tmp
    else wfs_find_in_slots img entrystart name (i + 1) fuel

/-- The same scan loop specialised to `WFS_FILE_ENTRY_OP_CALLBACK`:
collects, in slot order, the non-empty records handed to the
callback. -/
def wfs_list_slots (img : wfs_image_t) (entrystart : Nat) :
    Nat → Nat → List wfs_file_entry_t
  | _, 0 => []
  | i, fuel + 1 =>
    let tmp := readEntry img (entrystart + i * wfs_file_entry_sizeof)
    if wfs_file_entry_is_empty tmp then
      wfs_list_slots img entrystart (i + 1) fuel
    else tmp :: wfs_list_slots img entrystart (i + 1) fuel

/-- `wfs_file_entry_operation(parent, WFS_FILE_ENTRY_OP_FIND, entry, ...)`:
refuses an empty search name (`-EINVAL`, which every caller treats the
same as "not found"), otherwise scans `aantalfiles` slots starting at
`entrystartFor parent`. -/
def wfs_file_entry_operation_find (img : wfs_image_t)
    (parent : wfs_file_entry_t) (name : Nat → Nat) :
    Option wfs_file_entry_t :=
  if name 0 = 0 then none
  else wfs_find_in_slots img (entrystartFor parent) name 0 aantalfiles

/-! ## Path resolution (`wfs_find_entry`) -/

/-- `strchr(path, '/')`: the suffix of `path` starting at the first
slash (byte 47), if any. -/
def findSlash : List Nat → Option (List Nat)
  | [] => none
  | c :: rest => if c = 47 then some (c :: rest) else findSlash rest

/-- The `while (*path == '/') path++;` separator-skipping step. -/
def dropSlashes : List Nat → List Nat
  | [] => []
  | c :: rest => if c = 47 then dropSlashes rest else c :: rest

/-- The bytes of the next component: up to (excluding) the next slash. -/
def takeComp : List Nat → List Nat
  | [] => []
  | c :: rest => if c = 47 then [] else c :: takeComp rest

/-- The suffix from the next slash on (the `path = end` step; `end`
points at the next `/` or at the terminating NUL, here the empty
list). -/
def dropComp : List Nat → List Nat
  | [] => []
  | c :: rest => if c = 47 then c :: rest else dropComp rest

/-- The name field built by `memset` + `strncpy(filename, path, len)` +
`filename[len-1] = 0`: the component's bytes followed by zero padding.
(C strings carry no interior NUL, so the copy never stops early.) -/
def nameOfList (comp : List Nat) : Nat → Nat := fun i => comp.getD i 0

/-- `wfs_file_entry_t current_entry = { { 0, }, };` — the all-zero
record standing for the root directory. -/
def zeroEntry : wfs_file_entry_t :=
  { filename := fun _ => 0, start_block := 0, size := 0 }

/-- The resolution loop of `wfs_find_entry`.  One iteration: position
at the next `/` (none left ⇒ return the current entry), skip repeated
slashes, extract the component (empty ⇒ done), reject components with
`len >= WFS_FILENAME_SIZE - 1` (`len` is component length + 1), build
the search record, look it up in the (saved) parent entry, and
continue past the component.  Each iteration consumes at least one
byte of the path, so `path.length + 1` fuel outlasts the loop; the
fuel-0 arm is unreachable from `wfs_find_entry`. -/
def wfs_find_entry_go (img : wfs_image_t) :
    wfs_file_entry_t → List Nat → Nat → Option wfs_file_entry_t
  | _, _, 0 => none
  | current, path, fuel + 1 =>
    match findSlash path with
    | none => some current
    | some q =>
      let p2 := dropSlashes q
      let comp := takeComp p2
      if comp.length = 0 then some current
      else if WFS_FILENAME_SIZE - 1 ≤ comp.length + 1 then none
      else
        let cand : wfs_file_entry_t :=
          { filename := nameOfList comp, start_block := 0, size := 0 }
        if cand.filename 0 ≠ 0 then
          match wfs_file_entry_operation_find img current cand.filename with
          | some e => wfs_find_entry_go img e (dropComp p2) fuel
          | none => none
        else wfs_find_entry_go img cand (dropComp p2) fuel

/-- `wfs_find_entry(path, &entry)`: `none` is the C `false`.  Note the
loop never checks that the entry it is about to search inside is a
directory. -/
def wfs_find_entry (img : wfs_image_t) (path : List Nat) :
    Option wfs_file_entry_t :=
  if path.length = 0 ∨ path.headD 0 ≠ 47 then none
  else wfs_find_entry_go img zeroEntry path (path.length + 1)

/-! ## FUSE operations (the `wfs_oper` callback table) -/

/-- The transfer loop of `wfs_read`: `while (size > 0 && block >
WFS_BLOCK_FREE && block <= WFS_BLOCK_EOF)`.  Each pass moves at least
one byte (the entry block position is `< 512`), so `size` units of
fuel outlast the loop; the fuel-0 arm coincides with the `size == 0`
exit.  Error codes are the C negated errno values (`-5` is `-EIO`). -/
def wfs_read_loop (img : wfs_image_t) :
    Nat → Nat → Nat → Nat → Nat → Except Int Nat
  | 0, _, _, _, read => Except.ok read
  | fuel + 1, block, block_position, size, read =>
    if 0 < size ∧ WFS_BLOCK_FREE < block ∧ block ≤ WFS_BLOCK_EOF then
      let t0 := if block_position = 0 then WFS_BLOCK_SIZE
                else WFS_BLOCK_SIZE - block_position
      let transfer := if size < t0 then size else t0
      if 0 < size - transfer then
        let block2 := wfs_get_next_block img block
        if block2 = WFS_BLOCK_FREE ∨ WFS_BLOCK_EOF ≤ block2 then
          Except.error (-5)
        else wfs_read_loop img fuel block2 0 (size - transfer) (read + transfer)
      else Except.ok (read + transfer)
    else Except.ok read

/-- `wfs_read(path, buf, size, offset, fi)`: resolve, guard `offset >
current_size` (`-22` is `-EINVAL`), locate the starting block (`-5` is
`-EIO` past the chain), clamp `size` to the recorded size, transfer.
The result is the returned byte count (`-2` is `-ENOENT`). -/
def wfs_read (img : wfs_image_t) (path : List Nat) (size offset : Nat) :
    Except Int Nat :=
  match wfs_find_entry img path with
  | none => Except.error (-2)
  | some entry =>
    let current_size := wfs_file_entry_get_size entry
    if current_size < offset then Except.error (-22)
    else
      let bp := wfs_get_current_block img entry offset
      if WFS_BLOCK_EOF ≤ bp.1 then Except.error (-5)
      else
        let size2 := if current_size < offset + size then
                       current_size - offset
                     else size
        wfs_read_loop img size2 bp.1 bp.2 size2 0

/-- `wfs_getattr`: `.ok (isDirectory, st_size)`.  The literal path "/"
is special-cased by `strcmp` before any resolution. -/
def wfs_getattr (img : wfs_image_t) (path : List Nat) :
    Except Int (Bool × Nat) :=
  if path = [47] then Except.ok (true, 0)
  else
    match wfs_find_entry img path with
    | none => Except.error (-2)
    | some entry =>
      Except.ok (wfs_file_entry_is_directory entry,
                 wfs_file_entry_get_size entry)

/-- `wfs_open` (`-21` is `-EISDIR`). -/
def wfs_open (img : wfs_image_t) (path : List Nat) : Except Int Unit :=
  match wfs_find_entry img path with
  | none => Except.error (-2)
  | some entry =>
    if wfs_file_entry_is_directory entry then Except.error (-21)
    else Except.ok ()

/-- `wfs_readdir`: the records handed to the filler callback, in slot
order (the fixed "." and ".." fillers are not part of the catalog scan
and are omitted from the model; `-20` is `-ENOTDIR`). -/
def wfs_readdir (img : wfs_image_t) (path : List Nat) :
    Except Int (List wfs_file_entry_t) :=
  match wfs_find_entry img path with
  | none => Except.error (-2)
  | some entry =>
    if ¬ wfs_file_entry_is_empty entry ∧
        ¬ wfs_file_entry_is_directory entry then Except.error (-20)
    else Except.ok (wfs_list_slots img (entrystartFor entry) 0 aantalfiles)

/-- `wfs_write` returns `-ENOSYS` (`-38`) unconditionally: no write
path exists. -/
def wfs_write (img : wfs_image_t) (path : List Nat) (size offset : Nat) :
    Except Int Nat :=
  Except.error (-38)

/-- `wfs_mkdir`: the body in the source is syntactically unfinished;
before its final `return -ENOSYS` it only performs reads (basename and
parent-entry extraction and an entry scan whose `MKDIR` switch arm is
empty), so the observable result is `-ENOSYS` (`-38`) with no image
access beyond reads. -/
def wfs_mkdir (img : wfs_image_t) (path : List Nat) : Except Int Unit :=
  Except.error (-38)

/-- `wfs_rmdir`: `return -ENOSYS;`. -/
def wfs_rmdir (img : wfs_image_t) (path : List Nat) : Except Int Unit :=
  Except.error (-38)

/-- `wfs_create`: intentionally unsupported, `return -ENOSYS;`. -/
def wfs_create (img : wfs_image_t) (path : List Nat) : Except Int Unit :=
  Except.error (-38)

/-! ## The callback table as a step function over the image

Every storage access in `wfsfuse.c` is a `pread`; no operation in the
`wfs_oper` table contains a `pwrite`/`write` on the image fd.  The
dispatcher below pairs each operation's result with the image the
operation leaves behind — built from exactly the storage calls the
source makes, hence the unchanged `img`. -/

inductive wfs_op where
  | getattr (path : List Nat)
  | readdir (path : List Nat)
  | openF (path : List Nat)
  | createF (path : List Nat)
  | readF (path : List Nat) (size offset : Nat)
  | writeF (path : List Nat) (size offset : Nat)
  | mkdirF (path : List Nat)
  | rmdirF (path : List Nat)

inductive wfs_op_result where
  | attr (r : Except Int (Bool × Nat))
  | entries (r : Except Int (List wfs_file_entry_t))
  | unitRes (r : Except Int Unit)
  | countRes (r : Except Int Nat)

def wfs_dispatch : wfs_op → wfs_image_t → wfs_op_result × wfs_image_t
  | wfs_op.getattr p, img => (wfs_op_result.attr (wfs_getattr img p), img)
  | wfs_op.readdir p, img => (wfs_op_result.entries (wfs_readdir img p), img)
  | wfs_op.openF p, img => (wfs_op_result.unitRes (wfs_open img p), img)
  | wfs_op.createF p, img => (wfs_op_result.unitRes (wfs_create img p), img)
  | wfs_op.readF p s o, img => (wfs_op_result.countRes (wfs_read img p s o), img)
  | wfs_op.writeF p s o, img => (wfs_op_result.countRes (wfs_write img p s o), img)
  | wfs_op.mkdirF p, img => (wfs_op_result.unitRes (wfs_mkdir img p), img)
  | wfs_op.rmdirF p, img => (wfs_op_result.unitRes (wfs_rmdir img p), img)

/-- The image left on disk after serving a sequence of calls. -/
def wfs_run_ops (ops : List wfs_op) (img : wfs_image_t) : wfs_image_t :=
  ops.foldl (fun i op => (wfs_dispatch op i).2) img

/-! ## `strnlen` over a name field (for stating name-length facts) -/

/-- `strnlen` of a name field starting at index `i` with at most `n`
positions: the number of leading non-NUL bytes. -/
def strnlen_f (f : Nat → Nat) : Nat → Nat → Nat
  | _, 0 => 0
  | i, n + 1 => if f i = 0 then 0 else 1 + strnlen_f f (i + 1) n

/-! ## Concrete images for the settled counterexamples -/

def le16 (v : Nat) : List Nat := [v % 256, v / 256 % 256]

def le32 (v : Nat) : List Nat :=
  [v % 256, v / 256 % 256, v / 65536 % 256, v / 16777216 % 256]

/-- The 64 on-disk bytes of a `wfs_file_entry_t` with the given
NUL-padded name, start block and packed size field. -/
def entryBytes (name : List Nat) (sb sz : Nat) : List Nat :=
  (name ++ List.replicate (WFS_FILENAME_SIZE - name.length) 0)
    ++ le16 sb ++ le32 sz

/-- Overwrite `bs` into a byte store at offset `off`. -/
def writeBytes (f : Nat → Nat) (off : Nat) (bs : List Nat) : Nat → Nat :=
  fun o => if off ≤ o ∧ o < off + bs.length then bs.getD (o - off) (f o) else f o

/-- An image that is zero except for the listed `(offset, bytes)`
patches. -/
def mkImage (l : List (Nat × List Nat)) : wfs_image_t :=
  ⟨l.foldl (fun f p => writeBytes f p.1 p.2) (fun _ => 0)⟩

/-- Directory flag bit for a packed size field. -/
def dirFlag : Nat := 2 ^ 31

/-- Image for the directory-chain scan: root slot 0 holds directory
`d` (byte 100) whose chain is the single block 1 (table slot 0 = EOF);
root slot 1 holds directory `e` (byte 101) whose chain is block 3 then
block 7 (table slots 2 ↦ 7, 6 ↦ EOF).  Block 2 — adjacent to block 1
but on no chain — carries an entry record `x` (byte 120); block 7 —
the second block of `e`'s chain — carries an entry record `y`
(byte 121). -/
def imgChain : wfs_image_t := mkImage
  [ (WFS_ENTRIES_START, entryBytes [100] 1 dirFlag),
    (WFS_ENTRIES_START + wfs_file_entry_sizeof, entryBytes [101] 3 dirFlag),
    (WFS_BLOCK_TABLE_START, le16 WFS_BLOCK_EOF),
    (WFS_BLOCK_TABLE_START + 2 * 2, le16 7),
    (WFS_BLOCK_TABLE_START + 6 * 2, le16 WFS_BLOCK_EOF),
    (wfs_get_block_offset 1, entryBytes [120] 9 5),
    (wfs_get_block_offset 6, entryBytes [121] 10 5) ]

/-- `"/d/x"` and `"/e/y"` as byte lists. -/
def pathDX : List Nat := [47, 100, 47, 120]

def pathEY : List Nat := [47, 101, 47, 121]

/-- Image with a single root entry `z` (byte 122) stored in slot 20 of
the 64-slot root table. -/
def imgRoot20 : wfs_image_t := mkImage
  [ (WFS_ENTRIES_START + 20 * wfs_file_entry_sizeof, entryBytes [122] 2 5) ]

def pathZ : List Nat := [47, 122]

/-- Image where root slot 0 holds a REGULAR file `f` (byte 102,
directory bit clear, size 100, start block 5) and block 5's bytes spell
an entry record `g` (byte 103, start block 11, size 7). -/
def imgFileAsDir : wfs_image_t := mkImage
  [ (WFS_ENTRIES_START, entryBytes [102] 5 100),
    (wfs_get_block_offset 4, entryBytes [103] 11 7) ]

def pathFG : List Nat := [47, 102, 47, 103]

/-- Image with one file `a` (byte 97) of recorded size 512 whose chain
is exactly the single block 2 (table slot 1 = EOF). -/
def imgAligned : wfs_image_t := mkImage
  [ (WFS_ENTRIES_START, entryBytes [97] 2 512),
    (WFS_BLOCK_TABLE_START + 1 * 2, le16 WFS_BLOCK_EOF) ]

def pathA : List Nat := [47, 97]

/-- The all-zero image. -/
def imgZero : wfs_image_t := mkImage []

/-- A path whose single component has 56 bytes (56 times `a`). -/
def longPath56 : List Nat := 47 :: List.replicate 56 97

def pathNoSuch : List Nat := [47, 110]

/-- Image whose bytes at offset `WFS_BLOCK_TABLE_START + 65535 * 2` =
135182 — inside the data region — encode the 16-bit value 7. -/
def imgPastTable : wfs_image_t := mkImage
  [ (WFS_BLOCK_TABLE_START + 65535 * 2, le16 7) ]

/-! ## Settled claims -/

/-- C1: refuted as stated — `wfs_file_entry_operation` scans a
hard-coded `aantalfiles = 16` consecutive slots from the directory's
FIRST data block and never follows the chain.  On `imgChain`:
directory `d` has a one-block chain (block 1, successor EOF), yet the
lookup of `x` succeeds although `x`'s record lies in block 2, outside
`d`'s chain (slot 8 of the 16-slot scan); directory `e` has the
two-block chain 3 → 7, yet the lookup of `y` fails although `y`'s
record lies in block 7, ON `e`'s chain.  Under the claimed semantics
(8 slots per allocated block, chain followed to the sentinel) the
first lookup would fail and the second would succeed. -/
theorem wfs_dir_scan_hardcoded_sixteen_ignores_chain :
    wfs_get_next_block imgChain 1 = WFS_BLOCK_EOF ∧
    wfs_get_next_block imgChain 3 = 7 ∧
    wfs_get_next_block imgChain 7 = WFS_BLOCK_EOF ∧
    (wfs_find_entry imgChain pathDX).map (fun e => e.start_block) = some 9 ∧
    (wfs_find_entry imgChain pathEY).isSome = false := by
  decide

/-- C2: refuted as stated — the root scan visits only the first
`aantalfiles = 16` of the `WFS_N_FILES = 64` root slots.  On
`imgRoot20` the non-free entry `z` sits in root slot 20: `findEntry`
on the root does not find it and `readdir` on the root lists no
entry. -/
theorem wfs_root_scan_misses_slot_twenty :
    wfs_file_entry_is_empty
      (readEntry imgRoot20 (WFS_ENTRIES_START + 20 * wfs_file_entry_sizeof))
        = false ∧
    aantalfiles < WFS_N_FILES ∧
    (wfs_find_entry imgRoot20 pathZ).isSome = false ∧
    (wfs_readdir imgRoot20 [47]).map List.length = Except.ok 0 :=
  ⟨rfl, by decide, rfl, rfl⟩

/-- C3: refuted as stated — `wfs_find_entry` never checks that the
entry it searches inside is a directory.  On `imgFileAsDir`, `f` is a
regular file (directory bit clear), yet resolving `/f/g` succeeds by
interpreting `f`'s first data block as directory-entry records (the
resolved record is the `g` spelled by the file's data), and `getattr`
on `/f/g` reports success instead of a not-a-directory error. -/
theorem wfs_resolver_descends_into_regular_file :
    wfs_file_entry_is_directory (readEntry imgFileAsDir WFS_ENTRIES_START)
        = false ∧
    (wfs_find_entry imgFileAsDir pathFG).map (fun e => e.start_block)
        = some 11 ∧
    wfs_getattr imgFileAsDir pathFG = Except.ok (false, 7) :=
  ⟨rfl, rfl, rfl⟩

/-- C4: refuted as stated — `wfs_write` is a stub: every write call
returns `-ENOSYS` (`-38`) without resolving the path or touching any
chain or size field. -/
theorem wfs_write_always_enosys :
    ∀ (img : wfs_image_t) (path : List Nat) (size offset : Nat),
      wfs_write img path size offset = Except.error (-38) :=
  fun _ _ _ _ => rfl

/-- C5: refuted as stated — on `imgAligned` the file `a` has recorded
size 512 (an exact block multiple) and a chain of exactly one block,
and a read at `offset = size = 512` returns `-EIO` (`-5`): the chain
walk of `wfs_get_current_block` runs off the end sentinel before the
clamp can produce a zero-byte success.  Reads at `offset > size` do
fail with `-EINVAL` (`-22`), and a read one byte below the boundary
succeeds, as claimed. -/
theorem wfs_read_at_size_on_block_boundary_fails :
    (wfs_find_entry imgAligned pathA).map wfs_file_entry_get_size
        = some 512 ∧
    wfs_read imgAligned pathA 10 512 = Except.error (-5) ∧
    wfs_read imgAligned pathA 10 513 = Except.error (-22) ∧
    wfs_read imgAligned pathA 10 511 = Except.ok 1 :=
  ⟨rfl, rfl, rfl, rfl⟩

/-- C8: refuted as stated for block 0 — in
`wfs_get_next_block` the guard `current_block - 1 >= WFS_N_BLOCKS` is
computed after promotion to `int`, so for block 0 it compares `-1`
and does not trip; the table-read argument is then converted back to
`uint16_t`, index 65535, whose slot offset `WFS_BLOCK_TABLE_START +
65535 * 2` lies inside the data region.  On `imgPastTable` the call
with block 0 returns the value 7 read from the data region instead of
the end sentinel.  The sentinel and the values above 16384 behave as
claimed. -/
theorem wfs_next_block_zero_reads_data_region :
    wfs_get_next_block imgPastTable 0 = 7 ∧
    WFS_DATA_START ≤ WFS_BLOCK_TABLE_START + 65535 * 2 ∧
    wfs_get_next_block imgPastTable 20000 = WFS_BLOCK_EOF ∧
    wfs_get_next_block imgPastTable WFS_BLOCK_EOF = WFS_BLOCK_EOF := by
  decide

/-- C9: every operation of the callback table is read-only — the
source performs storage access exclusively through `pread` (there is
no `pwrite`/`write` call in `wfsfuse.c`), so dispatching any sequence
of calls leaves the backing image byte-for-byte equal to the initial
image. -/
theorem wfs_ops_leave_image_unchanged :
    ∀ (ops : List wfs_op) (img : wfs_image_t), wfs_run_ops ops img = img := by
  intro ops
  induction ops with
  | nil => intro img; rfl
  | cons op rest ih => intro img; cases op <;> exact ih img

/-! ## Helper lemmas for the general theorems -/

/-- The transfer loop can return at most `read + size` bytes. -/
theorem wfs_read_loop_le (img : wfs_image_t) :
    ∀ (fuel block bp size read n : Nat),
      wfs_read_loop img fuel block bp size read = Except.ok n →
      n ≤ read + size := by
  intro fuel
  induction fuel with
  | zero =>
    intro block bp size read n h
    simp only [wfs_read_loop] at h
    injection h with h
    omega
  | succ fuel ih =>
    intro block bp size read n h
    simp only [wfs_read_loop] at h
    by_cases hc : 0 < size ∧ WFS_BLOCK_FREE < block ∧ block ≤ WFS_BLOCK_EOF
    · rw [if_pos hc] at h
      set t0 := if bp = 0 then WFS_BLOCK_SIZE else WFS_BLOCK_SIZE - bp with ht0
      set transfer := if size < t0 then size else t0 with ht
      have htr : transfer ≤ size := by
        rw [ht]
        split
        · omega
        · next h2 => omega
      by_cases h2 : 0 < size - transfer
      · rw [if_pos h2] at h
        by_cases h3 : wfs_get_next_block img block = WFS_BLOCK_FREE ∨
            WFS_BLOCK_EOF ≤ wfs_get_next_block img block
        · rw [if_pos h3] at h
          exact absurd h (by simp)
        · rw [if_neg h3] at h
          have := ih _ _ _ _ _ h
          omega
      · rw [if_neg h2] at h
        injection h with h
        omega
    · rw [if_neg hc] at h
      injection h with h
      omega

/-- C6: confirmed — whenever `wfs_read` succeeds on a resolved entry,
the returned byte count never extends past the entry's recorded size:
the requested length is clamped to `recorded size - offset` before the
transfer loop, and the loop returns at most the clamped length. -/
theorem wfs_read_count_le_size_minus_offset :
    ∀ (img : wfs_image_t) (path : List Nat) (size offset : Nat)
      (entry : wfs_file_entry_t) (n : Nat),
      wfs_find_entry img path = some entry →
      wfs_read img path size offset = Except.ok n →
      n ≤ wfs_file_entry_get_size entry - offset := by
  intro img path size offset entry n hfind hread
  unfold wfs_read at hread
  rw [hfind] at hread
  dsimp only at hread
  by_cases h1 : wfs_file_entry_get_size entry < offset
  · rw [if_pos h1] at hread
    exact absurd hread (by simp)
  · rw [if_neg h1] at hread
    by_cases h2 : WFS_BLOCK_EOF ≤ (wfs_get_current_block img entry offset).1
    · rw [if_pos h2] at hread
      exact absurd hread (by simp)
    · rw [if_neg h2] at hread
      have hle := wfs_read_loop_le img _ _ _ _ _ _ hread
      by_cases h3 : wfs_file_entry_get_size entry < offset + size
      · rw [if_pos h3] at hle
        omega
      · rw [if_neg h3] at hle
        omega

/-- Witness for C6: on `imgAligned`, reading 10 bytes at offset 511 of
the 512-byte file `a` returns 1 byte, and 1 is at most the recorded
size minus the offset. -/
theorem wfs_read_count_le_size_minus_offset_witness :
    wfs_find_entry imgAligned pathA
        = some (readEntry imgAligned WFS_ENTRIES_START) ∧
    wfs_read imgAligned pathA 10 511 = Except.ok 1 ∧
    1 ≤ wfs_file_entry_get_size (readEntry imgAligned WFS_ENTRIES_START)
          - 511 :=
  ⟨rfl, rfl,
   wfs_read_count_le_size_minus_offset imgAligned pathA 10 511
     (readEntry imgAligned WFS_ENTRIES_START) 1 rfl rfl⟩

/-- If the first component of the path (which must start with a slash)
has 56 or more bytes, the resolution loop fails — for every image, so
before any catalog lookup can matter. -/
theorem long_comp_go_none :
    ∀ (img : wfs_image_t) (current : wfs_file_entry_t)
      (path : List Nat) (fuel : Nat),
      path.headD 0 = 47 →
      56 ≤ (takeComp (dropSlashes path)).length →
      wfs_find_entry_go img current path fuel = none := by
  intro img current path fuel hhead hlen
  cases path with
  | nil => exact absurd hhead (by decide)
  | cons c rest =>
    have hc : c = 47 := hhead
    subst hc
    cases fuel with
    | zero => rfl
    | succ fuel =>
      have hfs : findSlash (47 :: rest) = some (47 :: rest) := by
        simp [findSlash]
      have hds : dropSlashes (47 :: rest) = dropSlashes rest := by
        simp [dropSlashes]
      rw [hds] at hlen
      simp only [wfs_find_entry_go, hfs]
      rw [hds]
      rw [if_neg (by omega)]
      rw [if_pos (by unfold WFS_FILENAME_SIZE; omega)]

/-- C7: counterexample — the source has no distinct name-too-long
failure.  `wfs_find_entry` reports every failure as the single value
`false`, which the callers map to `-ENOENT` (`-2`): opening a path
whose only component has 56 bytes yields exactly the same error as
opening a missing one-byte name, not a distinct `NameTooLong`. -/
theorem wfs_long_name_error_not_distinct :
    wfs_open imgZero longPath56 = Except.error (-2) ∧
    wfs_open imgZero pathNoSuch = Except.error (-2) ∧
    (wfs_find_entry imgZero longPath56).isSome = false :=
  ⟨rfl, rfl, rfl⟩

/-- `findSlash` finds nothing exactly when the list has no slash. -/
theorem findSlash_none_not_mem :
    ∀ (p : List Nat), findSlash p = none → 47 ∉ p := by
  intro p
  induction p with
  | nil =>
    intro _ hm
    exact List.not_mem_nil 47 hm
  | cons c rest ih =>
    intro h hm
    simp only [findSlash] at h
    split at h
    · exact Option.noConfusion h
    · next hc =>
      rcases List.mem_cons.mp hm with h47 | h47
      · exact hc h47.symm
      · exact ih h h47

/-- `findSlash` splits the list at the first slash: a slash-free
prefix followed by the returned suffix, which starts with a slash. -/
theorem findSlash_some_decomp :
    ∀ (p q : List Nat), findSlash p = some q →
      ∃ p0 q0, p = p0 ++ q ∧ (∀ b ∈ p0, b ≠ 47) ∧ q = 47 :: q0 := by
  intro p
  induction p with
  | nil =>
    intro q h
    exact Option.noConfusion h
  | cons c rest ih =>
    intro q h
    simp only [findSlash] at h
    split at h
    · next hc =>
      injection h with h
      refine ⟨[], rest, ?_, ?_, ?_⟩
      · simp [← h]
      · intro b hb
        exact absurd hb (List.not_mem_nil b)
      · rw [← h, hc]
    · next hc =>
      obtain ⟨p0, q0, hp, hnm, hq⟩ := ih q h
      refine ⟨c :: p0, q0, by simp [hp], ?_, hq⟩
      intro b hb
      rcases List.mem_cons.mp hb with rfl | hb
      · exact hc
      · exact hnm b hb

/-- The component and the remainder reassemble to the list. -/
theorem takeComp_append_dropComp :
    ∀ (l : List Nat), takeComp l ++ dropComp l = l := by
  intro l
  induction l with
  | nil => rfl
  | cons c rest ih =>
    by_cases hc : c = 47
    · simp [takeComp, dropComp, hc]
    · simp only [takeComp, dropComp, if_neg hc, List.cons_append]
      rw [ih]

/-- A component carries no slash. -/
theorem takeComp_not47 :
    ∀ (l : List Nat), ∀ b ∈ takeComp l, b ≠ 47 := by
  intro l
  induction l with
  | nil =>
    intro b hb
    exact absurd hb (List.not_mem_nil b)
  | cons c rest ih =>
    intro b hb
    by_cases hc : c = 47
    · rw [takeComp, if_pos hc] at hb
      exact absurd hb (List.not_mem_nil b)
    · rw [takeComp, if_neg hc] at hb
      rcases List.mem_cons.mp hb with rfl | hb
      · exact hc
      · exact ih b hb

/-- After `dropSlashes` the head, if any, is not a slash. -/
theorem dropSlashes_head_not47 :
    ∀ (l : List Nat),
      dropSlashes l = [] ∨ ∃ c t, dropSlashes l = c :: t ∧ c ≠ 47 := by
  intro l
  induction l with
  | nil => exact Or.inl rfl
  | cons c rest ih =>
    by_cases hc : c = 47
    · rw [dropSlashes, if_pos hc]
      exact ih
    · rw [dropSlashes, if_neg hc]
      exact Or.inr ⟨c, rest, rfl, hc⟩

/-- Any list is a run of slashes followed by its `dropSlashes`. -/
theorem dropSlashes_decomp :
    ∀ (l : List Nat), ∃ a, l = List.replicate a 47 ++ dropSlashes l := by
  intro l
  induction l with
  | nil => exact ⟨0, rfl⟩
  | cons c rest ih =>
    by_cases hc : c = 47
    · obtain ⟨a, ha⟩ := ih
      refine ⟨a + 1, ?_⟩
      subst hc
      rw [dropSlashes, if_pos rfl, List.replicate_succ, List.cons_append]
      rw [← ha]
    · exact ⟨0, by rw [dropSlashes, if_neg hc]; rfl⟩

/-- `dropSlashes` eats a leading run of slashes. -/
theorem dropSlashes_replicate_append :
    ∀ (a : Nat) (x : List Nat),
      dropSlashes (List.replicate a 47 ++ x) = dropSlashes x := by
  intro a
  induction a with
  | zero => intro x; rfl
  | succ a ih =>
    intro x
    rw [List.replicate_succ, List.cons_append, dropSlashes, if_pos rfl]
    exact ih x

/-- A slash-headed suffix of `c ++ r` with `c` slash-free is a suffix
of `r`. -/
theorem suffix_cons47_of_append_not47 :
    ∀ (c r suf : List Nat), (∀ b ∈ c, b ≠ 47) →
      (47 :: suf) <:+ (c ++ r) → (47 :: suf) <:+ r := by
  intro c
  induction c with
  | nil =>
    intro r suf _ h
    exact h
  | cons x c ih =>
    intro r suf hc h
    rw [List.cons_append] at h
    rcases List.suffix_cons_iff.mp h with heq | h
    · injection heq with h1 _
      exact absurd h1.symm (hc x (List.mem_cons_self _ _))
    · exact ih r suf (fun b hb => hc b (List.mem_cons_of_mem _ hb)) h

/-- A slash-headed suffix of a slash run followed by `x` either starts
inside the run (so the tail is a shorter run followed by `x`) or is a
suffix of `x`. -/
theorem suffix_cons47_replicate :
    ∀ (a : Nat) (x suf : List Nat),
      (47 :: suf) <:+ (List.replicate a 47 ++ x) →
      (∃ a2, suf = List.replicate a2 47 ++ x) ∨ (47 :: suf) <:+ x := by
  intro a
  induction a with
  | zero =>
    intro x suf h
    exact Or.inr h
  | succ a ih =>
    intro x suf h
    rw [List.replicate_succ, List.cons_append] at h
    rcases List.suffix_cons_iff.mp h with heq | h
    · injection heq with _ h2
      exact Or.inl ⟨a, h2⟩
    · exact ih x suf h

/-- Resolution-loop invariant: if the loop succeeds, then wherever a
slash occurs in its path argument, the component that follows it
(after skipping repeated slashes) has at most 55 bytes — the length
guard has rejected everything longer before looking it up. -/
theorem wfs_find_entry_go_no_long_comp (img : wfs_image_t) :
    ∀ (fuel : Nat) (current : wfs_file_entry_t) (path : List Nat)
      (e : wfs_file_entry_t) (suf : List Nat),
      wfs_find_entry_go img current path fuel = some e →
      (47 :: suf) <:+ path →
      (takeComp (dropSlashes suf)).length ≤ 55 := by
  intro fuel
  induction fuel with
  | zero =>
    intro current path e suf h _
    exact Option.noConfusion h
  | succ fuel ih =>
    intro current path e suf h hsuf
    cases hfs : findSlash path with
    | none =>
      exact absurd (hsuf.subset (List.mem_cons_self _ _))
        (findSlash_none_not_mem path hfs)
    | some q =>
      obtain ⟨p0, q0, hp, hp0, hq⟩ := findSlash_some_decomp path q hfs
      have hsufq : (47 :: suf) <:+ q := by
        rw [hp] at hsuf
        exact suffix_cons47_of_append_not47 p0 q suf hp0 hsuf
      simp only [wfs_find_entry_go, hfs] at h
      obtain ⟨a, hrep⟩ := dropSlashes_decomp q
      by_cases h0 : (takeComp (dropSlashes q)).length = 0
      · have hdq : dropSlashes q = [] := by
          rcases dropSlashes_head_not47 q with hnil | ⟨c, t, hct, hc⟩
          · exact hnil
          · rw [hct] at h0
            rw [takeComp, if_neg hc] at h0
            simp at h0
        rw [hdq, List.append_nil] at hrep
        have hsufr : (47 :: suf) <:+ (List.replicate a 47 ++ ([] : List Nat)) := by
          rw [List.append_nil, ← hrep]
          exact hsufq
        rcases suffix_cons47_replicate a [] suf hsufr with ⟨a2, hs⟩ | habs
        · rw [hs, dropSlashes_replicate_append]
          simp [dropSlashes, takeComp]
        · have := habs.length_le
          simp at this
      · rw [if_neg h0] at h
        by_cases h1 : WFS_FILENAME_SIZE - 1 ≤ (takeComp (dropSlashes q)).length + 1
        · rw [if_pos h1] at h
          exact Option.noConfusion h
        · rw [if_neg h1] at h
          have hlen : (takeComp (dropSlashes q)).length ≤ 55 := by
            unfold WFS_FILENAME_SIZE at h1
            omega
          have hsufr2 : (47 :: suf) <:+ (List.replicate a 47 ++ dropSlashes q) := by
            rw [← hrep]
            exact hsufq
          rcases suffix_cons47_replicate a (dropSlashes q) suf hsufr2 with
            ⟨a2, hs⟩ | hsufx
          · rw [hs, dropSlashes_replicate_append]
            have hds : dropSlashes (dropSlashes q) = dropSlashes q := by
              rcases dropSlashes_head_not47 q with hnil | ⟨c, t, hct, hc⟩
              · rw [hnil]; rfl
              · rw [hct, dropSlashes, if_neg hc]
            rw [hds]
            exact hlen
          · have hsufr3 : (47 :: suf) <:+ dropComp (dropSlashes q) := by
              refine suffix_cons47_of_append_not47 (takeComp (dropSlashes q))
                _ suf (takeComp_not47 _) ?_
              rw [takeComp_append_dropComp]
              exact hsufx
            by_cases h2 : nameOfList (takeComp (dropSlashes q)) 0 ≠ 0
            · rw [if_pos h2] at h
              cases hf : wfs_file_entry_operation_find img current
                  (nameOfList (takeComp (dropSlashes q))) with
              | none =>
                rw [hf] at h
                exact Option.noConfusion h
              | some e2 =>
                rw [hf] at h
                exact ih e2 _ e suf h hsufr3
            · rw [if_neg h2] at h
              exact ih _ _ e suf h hsufr3

/-- C7 amended: for every path component of 56 or more bytes, wherever
it occurs in the path, resolution fails before any catalog lookup is
attempted for that component — once the loop reaches the component the
failure is the same for every image and every current entry (first
conjunct), and a full resolution of any path containing such a
component fails for every image (second conjunct) — but the failure is
the generic not-found outcome (`wfs_find_entry` has only the single
failure value `false`, surfaced by the callers as `-ENOENT`/`-2`), not
a distinct name-too-long error. -/
theorem wfs_long_component_fails_before_lookup :
    (∀ (img : wfs_image_t) (current : wfs_file_entry_t)
        (rest : List Nat) (fuel : Nat),
        56 ≤ (takeComp (dropSlashes rest)).length →
        wfs_find_entry_go img current (47 :: rest) fuel = none) ∧
    (∀ (img : wfs_image_t) (pre suf : List Nat),
        56 ≤ (takeComp (dropSlashes suf)).length →
        wfs_find_entry img (pre ++ 47 :: suf) = none ∧
        wfs_open img (pre ++ 47 :: suf) = Except.error (-2)) := by
  constructor
  · intro img current rest fuel hlen
    refine long_comp_go_none img current (47 :: rest) fuel rfl ?_
    rw [show dropSlashes (47 :: rest) = dropSlashes rest from by
      rw [dropSlashes, if_pos rfl]]
    exact hlen
  · intro img pre suf hlen
    have hfind : wfs_find_entry img (pre ++ 47 :: suf) = none := by
      cases hf : wfs_find_entry img (pre ++ 47 :: suf) with
      | none => rfl
      | some e =>
        unfold wfs_find_entry at hf
        split at hf
        · exact Option.noConfusion hf
        · have hle := wfs_find_entry_go_no_long_comp img _ zeroEntry _ e suf
            hf ⟨pre, rfl⟩
          exact absurd hle (by omega)
    refine ⟨hfind, ?_⟩
    unfold wfs_open
    rw [hfind]

/-- Witness for the amended C7: the 56-byte component in second
position — the path `/d/aaa…a` — fails on the all-zero image, and the
loop positioned at that component fails with an arbitrary current
entry. -/
theorem wfs_long_component_fails_before_lookup_witness :
    56 ≤ (takeComp (dropSlashes (List.replicate 56 97))).length ∧
    wfs_find_entry_go imgZero zeroEntry (47 :: List.replicate 56 97) 5
        = none ∧
    (wfs_find_entry imgZero ([47, 100] ++ 47 :: List.replicate 56 97)
        = none ∧
      wfs_open imgZero ([47, 100] ++ 47 :: List.replicate 56 97)
        = Except.error (-2)) :=
  ⟨by decide,
   wfs_long_component_fails_before_lookup.1 imgZero zeroEntry
     (List.replicate 56 97) 5 (by decide),
   wfs_long_component_fails_before_lookup.2 imgZero [47, 100]
     (List.replicate 56 97) (by decide)⟩

/-- `strnlen` is bounded by the position of any NUL byte. -/
theorem strnlen_f_le_of_zero (f : Nat → Nat) :
    ∀ (n i k : Nat), f (i + k) = 0 → strnlen_f f i n ≤ k := by
  intro n
  induction n with
  | zero =>
    intro i k h
    simp [strnlen_f]
  | succ n ih =>
    intro i k h
    simp only [strnlen_f]
    split
    · omega
    · next hf =>
      cases k with
      | zero => exact absurd (by simpa using h) hf
      | succ k =>
        have h2 : f (i + 1 + k) = 0 := by
          rw [Nat.add_assoc, Nat.add_comm 1 k]
          exact h
        have := ih (i + 1) k h2
        omega

/-- If a bounded `strncmp` reports equality and the second string has
a NUL within the bound, the first string has a NUL at or before that
position. -/
theorem strncmp_eq_zero_of_zero (a b : Nat → Nat) :
    ∀ (n i j : Nat), strncmp_eq a b i n = true → j < n → b (i + j) = 0 →
      ∃ k, k ≤ j ∧ a (i + k) = 0 := by
  intro n
  induction n with
  | zero =>
    intro i j _ hj _
    exact absurd hj (Nat.not_lt_zero j)
  | succ n ih =>
    intro i j hcmp hj hb
    simp only [strncmp_eq] at hcmp
    split at hcmp
    · exact absurd hcmp (by simp)
    · next hne =>
      have hab : a i = b i := not_ne_iff.mp hne
      split at hcmp
      · next hz => exact ⟨0, Nat.zero_le j, by simpa using hz⟩
      · next hz =>
        cases j with
        | zero => exact absurd (hab.trans (by simpa using hb)) hz
        | succ j =>
          have hb2 : b (i + 1 + j) = 0 := by
            rw [Nat.add_assoc, Nat.add_comm 1 j]
            exact hb
          obtain ⟨k, hk, ha⟩ := ih (i + 1) j hcmp (by omega) hb2
          refine ⟨k + 1, by omega, ?_⟩
          rw [show i + (k + 1) = i + 1 + k by omega]
          exact ha

/-- Any record returned by the FIND scan matched the searched name via
`strncmp`. -/
theorem wfs_find_in_slots_matches (img : wfs_image_t) (es : Nat)
    (name : Nat → Nat) :
    ∀ (fuel i : Nat) (e : wfs_file_entry_t),
      wfs_find_in_slots img es name i fuel = some e →
      strncmp_eq e.filename name 0 WFS_FILENAME_SIZE = true := by
  intro fuel
  induction fuel with
  | zero =>
    intro i e h
    exact Option.noConfusion h
  | succ fuel ih =>
    intro i e h
    simp only [wfs_find_in_slots] at h
    split at h
    · exact ih _ _ h
    · split at h
      · next hcmp =>
        injection h with h
        rw [← h]
        exact hcmp
      · exact ih _ _ h

/-- A record found under a search name whose NUL occurs at position
`m ≤ 55` has `strnlen` at most 55. -/
theorem wfs_op_find_strnlen (img : wfs_image_t) (parent : wfs_file_entry_t)
    (name : Nat → Nat) (e : wfs_file_entry_t) (m : Nat) :
    wfs_file_entry_operation_find img parent name = some e →
    m ≤ 55 → name m = 0 →
    strnlen_f e.filename 0 WFS_FILENAME_SIZE ≤ 55 := by
  intro h hm hz
  unfold wfs_file_entry_operation_find at h
  split at h
  · exact Option.noConfusion h
  · have hcmp := wfs_find_in_slots_matches img _ name _ _ e h
    obtain ⟨k, hk, ha⟩ :=
      strncmp_eq_zero_of_zero e.filename name WFS_FILENAME_SIZE 0 m hcmp
        (by unfold WFS_FILENAME_SIZE; omega) (by simpa using hz)
    have := strnlen_f_le_of_zero e.filename WFS_FILENAME_SIZE 0 k ha
    omega

/-- Resolution-loop invariant: starting from a record whose name field
has `strnlen ≤ 55`, every record the loop can return has
`strnlen ≤ 55` (components of 56 bytes or more are rejected by the
length guard, and a FIND match forces a NUL at or before index 55). -/
theorem wfs_find_entry_go_strnlen (img : wfs_image_t) :
    ∀ (fuel : Nat) (current : wfs_file_entry_t) (path : List Nat)
      (e : wfs_file_entry_t),
      strnlen_f current.filename 0 WFS_FILENAME_SIZE ≤ 55 →
      wfs_find_entry_go img current path fuel = some e →
      strnlen_f e.filename 0 WFS_FILENAME_SIZE ≤ 55 := by
  intro fuel
  induction fuel with
  | zero =>
    intro current path e _ h
    exact Option.noConfusion h
  | succ fuel ih =>
    intro current path e hcur h
    cases hfs : findSlash path with
    | none =>
      simp only [wfs_find_entry_go, hfs] at h
      injection h with h
      rw [← h]
      exact hcur
    | some q =>
      simp only [wfs_find_entry_go, hfs] at h
      by_cases h0 : (takeComp (dropSlashes q)).length = 0
      · rw [if_pos h0] at h
        injection h with h
        rw [← h]
        exact hcur
      · rw [if_neg h0] at h
        by_cases h1 : WFS_FILENAME_SIZE - 1 ≤ (takeComp (dropSlashes q)).length + 1
        · rw [if_pos h1] at h
          exact Option.noConfusion h
        · rw [if_neg h1] at h
          by_cases h2 : nameOfList (takeComp (dropSlashes q)) 0 ≠ 0
          · rw [if_pos h2] at h
            cases hf : wfs_file_entry_operation_find img current
                (nameOfList (takeComp (dropSlashes q))) with
            | none =>
              rw [hf] at h
              exact Option.noConfusion h
            | some e2 =>
              rw [hf] at h
              have hlen : (takeComp (dropSlashes q)).length ≤ 55 := by
                unfold WFS_FILENAME_SIZE at h1
                omega
              have hz : nameOfList (takeComp (dropSlashes q))
                  (takeComp (dropSlashes q)).length = 0 := by
                unfold nameOfList
                exact List.getD_eq_default _ _ le_rfl
              have he2 := wfs_op_find_strnlen img current _ e2
                (takeComp (dropSlashes q)).length hf hlen hz
              exact ih e2 _ e he2 h
          · rw [if_neg h2] at h
            have hz : nameOfList (takeComp (dropSlashes q)) 0 = 0 :=
              not_ne_iff.mp h2
            have hcand := strnlen_f_le_of_zero
              (nameOfList (takeComp (dropSlashes q))) WFS_FILENAME_SIZE 0 0
              (by simpa using hz)
            exact ih _ _ e (hcand.trans (Nat.zero_le 55)) h

/-- C10: confirmed — the resolver's length guard rejects every
component of 56 or more bytes before any lookup (for every image,
first conjunct), and consequently no resolved entry can have a name
field of `strnlen` 56 or 57: every record `wfs_find_entry` returns has
`strnlen ≤ 55` (second conjunct), so no absolute path resolves to an
on-disk entry whose stored name is 56 or 57 characters long. -/
theorem wfs_resolution_excludes_long_stored_names :
    (∀ (img : wfs_image_t) (path : List Nat),
        path.headD 0 = 47 →
        56 ≤ (takeComp (dropSlashes path)).length →
        wfs_find_entry img path = none) ∧
    (∀ (img : wfs_image_t) (path : List Nat) (e : wfs_file_entry_t),
        wfs_find_entry img path = some e →
        strnlen_f e.filename 0 WFS_FILENAME_SIZE ≤ 55) := by
  constructor
  · intro img path hhead hlen
    cases path with
    | nil => exact absurd hhead (by decide)
    | cons c rest =>
      have hc : c = 47 := hhead
      subst hc
      unfold wfs_find_entry
      rw [if_neg (by simp)]
      exact long_comp_go_none img zeroEntry (47 :: rest) _ rfl hlen
  · intro img path e h
    unfold wfs_find_entry at h
    split at h
    · exact Option.noConfusion h
    · exact wfs_find_entry_go_strnlen img _ zeroEntry path e (by decide) h

/-- Witness for C10: the 56-byte component fails on the all-zero
image, and the resolved entry `a` of `imgAligned` has a short name. -/
theorem wfs_resolution_excludes_long_stored_names_witness :
    (longPath56.headD 0 = 47 ∧
      56 ≤ (takeComp (dropSlashes longPath56)).length ∧
      wfs_find_entry imgZero longPath56 = none) ∧
    (wfs_find_entry imgAligned pathA
        = some (readEntry imgAligned WFS_ENTRIES_START) ∧
      strnlen_f (readEntry imgAligned WFS_ENTRIES_START).filename 0
          WFS_FILENAME_SIZE ≤ 55) :=
  ⟨⟨by decide, by decide,
    wfs_resolution_excludes_long_stored_names.1 imgZero longPath56
      (by decide) (by decide)⟩,
   ⟨rfl,
    wfs_resolution_excludes_long_stored_names.2 imgAligned pathA
      (readEntry imgAligned WFS_ENTRIES_START) rfl⟩⟩
